import Mathlib

/-!
Verification of the webhook-repo core: the GitHub-webhook payload
normalizer (`webhook_parser.py`), the event store operations
(`db.py`: `insert_event`, `get_events`) and the cursor-based polling
protocol served through `app.py`.

The Python code is shallowly embedded:

* JSON payloads (Python dicts/lists as produced by `request.get_json()`)
  become the inductive type `JVal`; `dict.get(key, default)` becomes
  `pyGet`, which fails (models `AttributeError`) on non-dict receivers,
  and Python truthiness becomes `pyTruthy`.
* Fallible Python code is modelled in `Except Unit`; the bare
  `try/except` blocks of the parsers collapse `.error` to `none`,
  matching the code's catch-all `return None`.
* `datetime` values are civil times (`CivilTime`); wall-clock "now" is
  passed explicitly.  Calendar arithmetic uses the standard civil-days
  algorithms over `Int` with Euclidean (= floor, for positive divisors)
  division.
* MongoDB is modelled as the in-order list of inserted documents with a
  monotonically increasing integer key standing for the `_id` ObjectId
  (field `oid` below); `find(query).sort(...).limit(n)` becomes
  filter / stable merge-sort / `mongoTake`.
-/

/-! ### JSON values (payload trees) -/

/-- A Python/JSON value as delivered by `request.get_json()`. -/
inductive JVal where
  | null
  | bool (b : Bool)
  | num (n : Int)
  | str (s : String)
  | arr (xs : List JVal)
  | obj (fields : List (String × JVal))
deriving Repr

/-- First-match association-list lookup (Python dict lookup; keys are unique
in a dict, so first-match is exact). -/
def jlookup (fs : List (String × JVal)) (k : String) : Option JVal :=
  match fs with
  | [] => none
  | (k', v) :: rest => if k' = k then some v else jlookup rest k

/-- Python truthiness (`bool(v)`), total on all values. -/
def pyTruthy : JVal → Bool
  | .null => false
  | .bool b => b
  | .num n => n != 0
  | .str s => !(s == "")
  | .arr xs => !xs.isEmpty
  | .obj fs => !fs.isEmpty

/-- `v.get(k, dflt)`.  Returns the default only when the key is absent
(a key present with value `null` yields `null`); raises `AttributeError`
(modelled as `.error ()`) when the receiver is not a dict. -/
def pyGet (v : JVal) (k : String) (dflt : JVal) : Except Unit JVal :=
  match v with
  | .obj fs => .ok ((jlookup fs k).getD dflt)
  | _ => .error ()

/-- Python `v == s` for a string literal `s`: string comparison when `v`
is a string, `False` (no exception) for every other type. -/
def jvalEqStr (v : JVal) (s : String) : Bool :=
  match v with
  | .str t => t == s
  | _ => false

/-! ### Civil time

`CivilTime` stands for a Python `datetime` (second precision, as the
code formats with `%Y-%m-%d %H:%M:%S`).  `strftime` zero-padding is
modelled by the fixed-width digit formatter below. -/

structure CivilTime where
  year : Nat
  month : Nat
  day : Nat
  hour : Nat
  minute : Nat
  second : Nat
deriving Repr, DecidableEq

/-- The `datetime` range invariants relevant to the fixed-width format:
each field fits its zero-padded width and the date/time fields are in
calendar range. -/
def ValidCT (t : CivilTime) : Prop :=
  1 ≤ t.year ∧ t.year ≤ 9999 ∧ 1 ≤ t.month ∧ t.month ≤ 12 ∧
  1 ≤ t.day ∧ t.day ≤ 31 ∧ t.hour ≤ 23 ∧ t.minute ≤ 59 ∧ t.second ≤ 59

instance (t : CivilTime) : Decidable (ValidCT t) := by
  unfold ValidCT; infer_instance

/-- The decimal digit character for `n % 10`. -/
def digitChar10 (n : Nat) : Char :=
  match n % 10 with
  | 0 => '0' | 1 => '1' | 2 => '2' | 3 => '3' | 4 => '4'
  | 5 => '5' | 6 => '6' | 7 => '7' | 8 => '8' | _ => '9'

/-- Two-digit zero-padded decimal (for `%m %d %H %M %S`). -/
def pad2 (n : Nat) : List Char := [digitChar10 (n / 10), digitChar10 n]

/-- Four-digit zero-padded decimal (for `%Y`). -/
def pad4 (n : Nat) : List Char :=
  [digitChar10 (n / 1000), digitChar10 (n / 100), digitChar10 (n / 10), digitChar10 n]

/-- `dt.strftime("%Y-%m-%d %H:%M:%S UTC")` as a character list. -/
def fmtList (t : CivilTime) : List Char :=
  pad4 t.year ++ '-' :: pad2 t.month ++ '-' :: pad2 t.day ++
  ' ' :: pad2 t.hour ++ ':' :: pad2 t.minute ++ ':' :: pad2 t.second ++
  [' ', 'U', 'T', 'C']

/-- `dt.strftime("%Y-%m-%d %H:%M:%S UTC")`. -/
def fmtCT (t : CivilTime) : String := ⟨fmtList t⟩

/-- Days since the Unix epoch of a civil date (standard civil-calendar
algorithm; all divisions are by positive constants, so `Int./` is floor
division). -/
def daysFromCivil (y m d : Int) : Int :=
  let y2 := if m ≤ 2 then y - 1 else y
  let era := y2 / 400
  let yoe := y2 - era * 400
  let mp := (m + 9) % 12
  let doy := (153 * mp + 2) / 5 + d - 1
  let doe := yoe * 365 + yoe / 4 - yoe / 100 + doy
  era * 146097 + doe - 719468

/-- Civil date from days since the Unix epoch (inverse algorithm). -/
def civilFromDays (z0 : Int) : Int × Int × Int :=
  let z := z0 + 719468
  let era := z / 146097
  let doe := z - era * 146097
  let yoe := (doe - doe / 1460 + doe / 36524 - doe / 146096) / 365
  let y := yoe + era * 400
  let doy := doe - (365 * yoe + yoe / 4 - yoe / 100)
  let mp := (5 * doy + 2) / 153
  let d := doy - (153 * mp + 2) / 5 + 1
  let m := mp + (if mp < 10 then 3 else -9)
  (y + (if m ≤ 2 then 1 else 0), m, d)

/-- Seconds since the Unix epoch of an aware civil time with a UTC
offset given in minutes (`datetime` value minus its `utcoffset`). -/
def ctToEpoch (y m d hh mm ss : Nat) (offMinutes : Int) : Int :=
  daysFromCivil y m d * 86400 +
    (hh : Int) * 3600 + (mm : Int) * 60 + (ss : Int) - offMinutes * 60

/-- Seconds since the Unix epoch back to a civil time, `none` when the
result leaves the `datetime` year range 1..9999 (Python raises
`OverflowError` there, which the caller's `except` turns into the
fallback). -/
def epochToCT (t : Int) : Option CivilTime :=
  let days := t / 86400
  let sod := t % 86400
  let ymd := civilFromDays days
  if 1 ≤ ymd.1 ∧ ymd.1 ≤ 9999 then
    some ⟨ymd.1.toNat, ymd.2.1.toNat, ymd.2.2.toNat,
          (sod / 3600).toNat, (sod % 3600 / 60).toNat, (sod % 60).toNat⟩
  else none

/-! ### `datetime.fromisoformat` (modelled subset) and the timestamp normalizer

`parseISO` models `datetime.fromisoformat` on the grammar
`YYYY-MM-DD[(T| )HH:MM[:SS][(+|-)HH:MM]]` with full range validation
(calendar-valid day of month, hour < 24, offset hour < 24): exactly the
shapes GitHub delivers and the spec discusses.  Strings outside this
grammar (notably anything with trailing text such as the code's own
`" UTC"` suffix, which `fromisoformat` rejects in every Python version)
parse to `none`. -/

/-- `c` is an ASCII decimal digit. -/
def isDigitCh (c : Char) : Bool := 48 ≤ c.toNat && c.toNat ≤ 57

/-- Numeric value of a digit character. -/
def digVal (c : Char) : Nat := c.toNat - 48

/-- Parsed ISO-8601 datetime; `offMinutes = none` means a naive
(offset-free) value. -/
structure ParsedISO where
  year : Nat
  month : Nat
  day : Nat
  hour : Nat
  minute : Nat
  second : Nat
  offMinutes : Option Int
deriving Repr, DecidableEq

/-- Days in a month (proleptic Gregorian, as `datetime` validates). -/
def daysInMonth (y m : Nat) : Nat :=
  if m = 2 then (if (y % 4 = 0 && !(y % 100 = 0)) || y % 400 = 0 then 29 else 28)
  else if m = 4 || m = 6 || m = 9 || m = 11 then 30 else 31

/-- UTC-offset tail after the sign: `HH:MM` with the `timezone` range
check (strictly less than 24 hours). -/
def parseOffTail (sign : Int) : List Char → Option Int
  | [o1, o2, ':', o3, o4] =>
    if isDigitCh o1 && isDigitCh o2 && isDigitCh o3 && isDigitCh o4 then
      let oh := digVal o1 * 10 + digVal o2
      let om := digVal o3 * 10 + digVal o4
      if oh ≤ 23 && om ≤ 59 then some (sign * ((oh : Int) * 60 + om)) else none
    else none
  | _ => none

/-- Time-of-day tail: `HH:MM[:SS]` plus optional offset, end of input
required. -/
def parseTimeTail (l : List Char) : Option (Nat × Nat × Nat × Option Int) :=
  match l with
  | h1 :: h2 :: ':' :: m1 :: m2 :: rest =>
    if isDigitCh h1 && isDigitCh h2 && isDigitCh m1 && isDigitCh m2 then
      let hh := digVal h1 * 10 + digVal h2
      let mm := digVal m1 * 10 + digVal m2
      if hh ≤ 23 && mm ≤ 59 then
        match rest with
        | [] => some (hh, mm, 0, none)
        | '+' :: tail => (parseOffTail 1 tail).map (fun o => (hh, mm, 0, some o))
        | '-' :: tail => (parseOffTail (-1) tail).map (fun o => (hh, mm, 0, some o))
        | ':' :: s1 :: s2 :: rest2 =>
          if isDigitCh s1 && isDigitCh s2 then
            let ss := digVal s1 * 10 + digVal s2
            if ss ≤ 59 then
              match rest2 with
              | [] => some (hh, mm, ss, none)
              | '+' :: tail => (parseOffTail 1 tail).map (fun o => (hh, mm, ss, some o))
              | '-' :: tail => (parseOffTail (-1) tail).map (fun o => (hh, mm, ss, some o))
              | _ => none
            else none
          else none
        | _ => none
      else none
    else none
  | _ => none

/-- The modelled `datetime.fromisoformat`. -/
def parseISO (l : List Char) : Option ParsedISO :=
  match l with
  | y1 :: y2 :: y3 :: y4 :: '-' :: m1 :: m2 :: '-' :: d1 :: d2 :: rest =>
    if isDigitCh y1 && isDigitCh y2 && isDigitCh y3 && isDigitCh y4 &&
       isDigitCh m1 && isDigitCh m2 && isDigitCh d1 && isDigitCh d2 then
      let y := digVal y1 * 1000 + digVal y2 * 100 + digVal y3 * 10 + digVal y4
      let m := digVal m1 * 10 + digVal m2
      let d := digVal d1 * 10 + digVal d2
      if 1 ≤ y && 1 ≤ m && m ≤ 12 && 1 ≤ d && d ≤ daysInMonth y m then
        match rest with
        | [] => some ⟨y, m, d, 0, 0, 0, none⟩
        | sep :: tail =>
          if sep = 'T' || sep = ' ' then
            (parseTimeTail tail).map (fun t => ⟨y, m, d, t.1, t.2.1, t.2.2.1, t.2.2.2⟩)
          else none
      else none
    else none
  | _ => none

/-- Python `str.strip()` whitespace test (the ASCII cases; GitHub
timestamps carry none of the exotic ones). -/
def isSpaceCh (c : Char) : Bool := c = ' ' || c = '\t' || c = '\n' || c = '\r'

/-- `s.strip()`. -/
def pyStrip (l : List Char) : List Char :=
  ((l.dropWhile isSpaceCh).reverse.dropWhile isSpaceCh).reverse

/-- `s.replace("Z", "+00:00")` (every occurrence, left to right). -/
def replaceZ : List Char → List Char
  | [] => []
  | 'Z' :: rest => '+' :: '0' :: '0' :: ':' :: '0' :: '0' :: replaceZ rest
  | c :: rest => c :: replaceZ rest

/-- `_timestamp_to_utc_str` on a string input.  `now` is the wall clock
(`datetime.now(timezone.utc)`), passed explicitly.  Empty input and any
parse failure fall back to `now`; a naive parse is formatted as-is
(treated as already UTC); an aware parse is converted to UTC, with the
out-of-range case (Python `OverflowError`, caught by the bare `except`)
also falling back to `now`. -/
def timestamp_to_utc_str (now : CivilTime) (s : String) : String :=
  if s = "" then fmtCT now
  else
    match parseISO (replaceZ (pyStrip s.data)) with
    | none => fmtCT now
    | some p =>
      match p.offMinutes with
      | none => fmtCT ⟨p.year, p.month, p.day, p.hour, p.minute, p.second⟩
      | some off =>
        match epochToCT (ctToEpoch p.year p.month p.day p.hour p.minute p.second off) with
        | some ct => fmtCT ct
        | none => fmtCT now

/-- `_timestamp_to_utc_str` applied to an arbitrary payload value, as the
parsers do: any falsy value takes the `if not timestamp_str` fallback, a
truthy non-string raises (`.strip()` on a non-`str`), a truthy string is
normalized. -/
def timestamp_to_utc_jval (now : CivilTime) (v : JVal) : Except Unit String :=
  if !pyTruthy v then .ok (fmtCT now)
  else
    match v with
    | .str s => .ok (timestamp_to_utc_str now s)
    | _ => .error ()

/-! ### Event records and the payload normalizers (`webhook_parser.py`) -/

/-- Action constants from `constants.py`. -/
def ACTION_PUSH : String := "PUSH"

def ACTION_PULL_REQUEST : String := "PULL_REQUEST"

def ACTION_MERGE : String := "MERGE"

/-- GitHub event-kind labels from `constants.py`. -/
def GITHUB_EVENT_PUSH : String := "push"

def GITHUB_EVENT_PULL_REQUEST : String := "pull_request"

/-- The dict built by the parsers.  `action` and `timestamp` are always
strings (the code assigns a constant and the normalizer output there);
the remaining values are whatever payload values the code stores. -/
structure EventRecord where
  request_id : JVal
  author : JVal
  action : String
  from_branch : JVal
  to_branch : JVal
  timestamp : String
deriving Repr

/-- Python `str()` for the values relevant here (ints, strings, bools,
None).  For containers the code never formats them in practice
(`pr["number"]` is an int); their textual form is modelled loosely
(Python would use single quotes and `repr` of the elements), which no
theorem depends on. -/
def pyStr : JVal → String
  | .null => "None"
  | .bool true => "True"
  | .bool false => "False"
  | .num n => toString n
  | .str s => s
  | .arr _ => "[...]"
  | .obj _ => "\x7b...\x7d"

/-- `commit_id[:40]`: slicing is defined on `str` and `list`, raises
`TypeError` elsewhere. -/
def pySlice40 : JVal → Except Unit JVal
  | .str s => .ok (.str ⟨s.data.take 40⟩)
  | .arr xs => .ok (.arr (xs.take 40))
  | _ => .error ()

/-- The character list of the literal `"refs/heads/"`. -/
def refsHeadsChars : List Char := "refs/heads/".data

/-- `ref.replace("refs/heads/", "")`: removes every non-overlapping
occurrence, scanning left to right (Python `str.replace` semantics).
The first arm spells out the characters of `"refs/heads/"` so the
recursion is structural. -/
def removeHeads : List Char → List Char
  | 'r' :: 'e' :: 'f' :: 's' :: '/' :: 'h' :: 'e' :: 'a' :: 'd' :: 's' :: '/' :: rest =>
    removeHeads rest
  | c :: rest => c :: removeHeads rest
  | [] => []

/-- `ref.replace("refs/heads/", "") if ref.startswith("refs/heads/") else ref`. -/
def branchOfRef (s : String) : String :=
  if refsHeadsChars.isPrefixOf s.data then ⟨removeHeads s.data⟩ else s

/-- `_parse_push_event` body inside the `try`: any `.error` stands for an
exception reaching the `except`, which returns `None`. -/
def parse_push_eventE (now : CivilTime) (payload : JVal) : Except Unit EventRecord := do
  let head_commit ← pyGet payload "head_commit" (.obj [])
  let cid ← pyGet head_commit "id" .null
  let commit_id ← if pyTruthy cid then pure cid else pyGet payload "after" (.str "")
  let pusher ← pyGet payload "pusher" (.obj [])
  let author0 ← pyGet pusher "name" (.str "")
  let author ←
    if pyTruthy author0 then pure author0
    else do
      let a ← pyGet head_commit "author" (.obj [])
      pyGet a "name" (.str "")
  let refv ← pyGet payload "ref" (.str "")
  let branch ←
    match refv with
    | .str s => Except.ok (JVal.str (branchOfRef s))
    | _ => Except.error ()
  let tsv ← pyGet head_commit "timestamp" (.str "")
  let timestamp ← timestamp_to_utc_jval now tsv
  let request_id ← if pyTruthy commit_id then pySlice40 commit_id else pure (.str "")
  pure ⟨request_id, author, ACTION_PUSH, branch, branch, timestamp⟩

/-- `_parse_push_event` (the `try/except` collapses failures to `none`). -/
def parse_push_event (now : CivilTime) (payload : JVal) : Option EventRecord :=
  (parse_push_eventE now payload).toOption

/-- The field-extraction tail of `_parse_pull_request_event` (everything
after `our_action` is decided). -/
def prBuild (now : CivilTime) (pr : JVal) (our_action : String) :
    Except Unit (Option EventRecord) := do
  let pr_number ← pyGet pr "number" (.str "")
  let request_id := if pyTruthy pr_number then JVal.str (pyStr pr_number) else JVal.str ""
  let user ← pyGet pr "user" (.obj [])
  let author ← pyGet user "login" (.str "")
  let headv ← pyGet pr "head" (.obj [])
  let from_branch ← pyGet headv "ref" (.str "")
  let basev ← pyGet pr "base" (.obj [])
  let to_branch ← pyGet basev "ref" (.str "")
  let ua ← pyGet pr "updated_at" (.str "")
  let updated_at ← if pyTruthy ua then pure ua else pyGet pr "created_at" (.str "")
  let timestamp ← timestamp_to_utc_jval now updated_at
  pure (some ⟨request_id, author, our_action, from_branch, to_branch, timestamp⟩)

/-- `_parse_pull_request_event` body inside the `try`.  The explicit
`return None` for unsupported action verbs and a raised exception both
surface as `None` exactly as in Python; the decision table branches on
`(merged truthiness, action verb)` and the unsupported row returns
before any further field access. -/
def parse_pull_request_eventE (now : CivilTime) (payload : JVal) :
    Except Unit (Option EventRecord) := do
  let pr ← pyGet payload "pull_request" (.obj [])
  let action ← pyGet payload "action" (.str "")
  let merged ← pyGet pr "merged" (.bool false)
  if pyTruthy merged && jvalEqStr action "closed" then prBuild now pr ACTION_MERGE
  else if jvalEqStr action "opened" then prBuild now pr ACTION_PULL_REQUEST
  else if !(jvalEqStr action "opened" || jvalEqStr action "closed") then pure none
  else prBuild now pr ACTION_PULL_REQUEST

/-- `_parse_pull_request_event`. -/
def parse_pull_request_event (now : CivilTime) (payload : JVal) : Option EventRecord :=
  match parse_pull_request_eventE now payload with
  | .ok r => r
  | .error _ => none

/-- `parse_github_webhook(payload, event_type)`. -/
def parse_github_webhook (now : CivilTime) (payload : JVal) (event_type : String) :
    Option EventRecord :=
  if event_type = GITHUB_EVENT_PUSH then parse_push_event now payload
  else if event_type = GITHUB_EVENT_PULL_REQUEST then parse_pull_request_event now payload
  else none

/-! ### Event store (`db.py`) -/

/-- One stored document: the record plus its MongoDB `_id`.  The
ObjectId is modelled as a `Nat` (`oid`) assigned by the store. -/
structure StoredEvent where
  oid : Nat
  doc : EventRecord
deriving Repr

/-- The events collection: documents in insertion order plus the next
key. -/
structure EventStore where
  records : List StoredEvent
  nextId : Nat
deriving Repr

def emptyStore : EventStore := ⟨[], 0⟩

/-- `insert_event(event_data)` = `collection.insert_one(event_data)`.
Modelled from the spec: the storage engine (MongoDB ObjectId generation,
outside this repository) supplies "an identifier type ... monotonically
increasing with insertion order", "assigned by the store at insert
time"; the model realizes it as an atomically incremented counter.
Returns the new store and the inserted id. -/
def insert_event (s : EventStore) (e : EventRecord) : EventStore × Nat :=
  (⟨s.records ++ [⟨s.nextId, e⟩], s.nextId + 1⟩, s.nextId)

/-- A sequence of successful inserts. -/
def insertAll (s : EventStore) (es : List EventRecord) : EventStore :=
  es.foldl (fun st e => (insert_event st e).1) s

/-- The `after_id` request argument as it reaches `get_events`: a string
that `ObjectId(...)` accepts (`valid n`, denoting the id `n`) or one it
rejects (`invalid s`, the `except` branch that falls back to
`query = {}`).  Valid ObjectId strings are 24 hex chars, hence never
empty. -/
inductive CursorStr where
  | valid (n : Nat)
  | invalid (s : String)
deriving Repr, DecidableEq

/-- Python truthiness of the `after_id` argument (`if after_id:`):
`None` and the empty string are falsy. -/
def cursorTruthy : Option CursorStr → Bool
  | none => false
  | some (.valid _) => true
  | some (.invalid s) => !(s == "")

/-- Code-point lexicographic `<` on character lists: Python string
comparison and BSON string comparison for the ASCII canonical
timestamps. -/
def strLtb : List Char → List Char → Bool
  | [], [] => false
  | [], _ :: _ => true
  | _ :: _, [] => false
  | a :: as, b :: bs =>
    (a.toNat < b.toNat : Bool) || (a.toNat == b.toNat && strLtb as bs)

/-- Mongo `sort("_id", 1)` comparison. -/
def byIdLe (a b : StoredEvent) : Bool := a.oid ≤ b.oid

/-- `byIdLe` as a sorting relation. -/
def idLeP (a b : StoredEvent) : Prop := byIdLe a b = true

instance : DecidableRel idLeP :=
  fun a b => inferInstanceAs (Decidable (byIdLe a b = true))

/-- Display comparison: descending by `(e.get("timestamp") or "", e["_id"])`
(Python `sort(key=..., reverse=True)` and Mongo
`sort([("timestamp", -1), ("_id", -1)])` — the stored `timestamp` is
always a string, so `or ""` only renames the empty string). -/
def byDisplayDesc (a b : StoredEvent) : Bool :=
  strLtb b.doc.timestamp.data a.doc.timestamp.data ||
    (b.doc.timestamp == a.doc.timestamp && b.oid ≤ a.oid)

/-- `byDisplayDesc` as a sorting relation: `a` sorts no later than `b`. -/
def dispGe (a b : StoredEvent) : Prop := byDisplayDesc a b = true

instance : DecidableRel dispGe :=
  fun a b => inferInstanceAs (Decidable (byDisplayDesc a b = true))

/-- Mongo `limit(n)`: `n = 0` means no limit (the route default is 100;
negative limits do not arise). -/
def mongoTake (limit : Nat) (l : List StoredEvent) : List StoredEvent :=
  if limit = 0 then l else l.take limit

/-- `str(max(e["_id"] for e in events)) if events else None`. -/
def maxOid (l : List StoredEvent) : Option Nat := (l.map (fun e => e.oid)).max?

/-- `get_events(since_timestamp, after_id, limit)`: the pair
`(events, latest_id)`.  Cursor branch: filter `_id > after_id` (or no
filter when `ObjectId(after_id)` raises), sort by `_id` ascending, cap,
then re-sort for display; otherwise filter by `timestamp > since` (if
given), sort for display, cap.  Converting `_id` to `str` for JSON is
left out of the model (ids stay `Nat`). -/
def get_events (store : EventStore) (since_timestamp : Option String)
    (after_id : Option CursorStr) (limit : Nat) : List StoredEvent × Option Nat :=
  if cursorTruthy after_id then
    let matched :=
      match after_id with
      | some (.valid n) => store.records.filter (fun (e : StoredEvent) => decide (n < e.oid))
      | _ => store.records.filter (fun _ => true)
    let eventsAsc := mongoTake limit (matched.insertionSort idLeP)
    let events := eventsAsc.insertionSort dispGe
    (events, maxOid events)
  else
    let matched :=
      match since_timestamp with
      | some ts => store.records.filter (fun (e : StoredEvent) => strLtb ts.data e.doc.timestamp.data)
      | none => store.records.filter (fun _ => true)
    let events := mongoTake limit (matched.insertionSort dispGe)
    (events, maxOid events)

/-- The polling protocol of the spec (and of `/api/events` consumers): a
single poller starts with no cursor and then always passes the
`latest_id` it last received; it stops on an empty batch (the store is
drained) or when the fuel runs out.  Returns the concatenation of all
batches received. -/
def drainPoll (store : EventStore) (limit : Nat) :
    Option Nat → Nat → List StoredEvent
  | _, 0 => []
  | cursor, fuel + 1 =>
    let res := get_events store none (cursor.map CursorStr.valid) limit
    if res.1.isEmpty then [] else res.1 ++ drainPoll store limit res.2 fuel

/-! ### Auxiliary predicates used by the statements -/

/-- `v` is a value the final `or`-chosen timestamp may take without
`.strip()` raising: a string, or anything falsy. -/
def strOrFalsy (v : JVal) : Bool :=
  match v with
  | .str _ => true
  | _ => !pyTruthy v

/-- An optional payload field that is either absent or a dict (so a
chained `.get` cannot raise). -/
def isObjOrAbsent : Option JVal → Bool
  | none => true
  | some (.obj _) => true
  | _ => false

/-- The push payloads on which every field access of `_parse_push_event`
is defined: a dict whose `head_commit`, `pusher` and `head_commit.author`
fields (when present) are dicts, whose `ref` (when present) is a string,
whose effective commit id is falsy or sliceable (string/list), and whose
`head_commit.timestamp` (when truthy) is a string. -/
def wellTypedPush (p : JVal) : Bool :=
  match p with
  | .obj fs =>
    match (jlookup fs "head_commit").getD (.obj []) with
    | .obj hcf =>
      (let cid := (jlookup hcf "id").getD .null
       let commit_id := if pyTruthy cid then cid else (jlookup fs "after").getD (.str "")
       match commit_id with
       | .str _ => true
       | .arr _ => true
       | v => !pyTruthy v) &&
      isObjOrAbsent (jlookup fs "pusher") &&
      isObjOrAbsent (jlookup hcf "author") &&
      (match (jlookup fs "ref").getD (.str "") with
       | .str _ => true
       | _ => false) &&
      strOrFalsy ((jlookup hcf "timestamp").getD (.str ""))
    | _ => false
  | _ => false

/-- The timestamp chosen by `_parse_pull_request_event`
(`updated_at or created_at`) is a string or falsy. -/
def prTsOk (prf : List (String × JVal)) : Bool :=
  let ua := (jlookup prf "updated_at").getD (.str "")
  strOrFalsy (if pyTruthy ua then ua else (jlookup prf "created_at").getD (.str ""))

/-! ### Concrete sample values -/

def now1970 : CivilTime := ⟨1970, 1, 1, 0, 0, 0⟩

def now2024 : CivilTime := ⟨2024, 1, 1, 0, 0, 0⟩

/-- A stored-shape record as the push parser would emit it. -/
def sampleRecord : EventRecord :=
  ⟨.str "", .str "", "PUSH", .str "", .str "", "2024-01-01 00:00:00 UTC"⟩

/-- Two inserts of records with identical timestamps. -/
def store2 : EventStore := insertAll emptyStore [sampleRecord, sampleRecord]

/-- A push payload whose ref contains the branch prefix twice. -/
def payloadDoubleRef : JVal := .obj [("ref", .str "refs/heads/refs/heads/main")]

/-- The record the code produces for `payloadDoubleRef`. -/
def pushRefRecord : EventRecord :=
  ⟨.str "", .str "", "PUSH", .str "main", .str "main", fmtCT now2024⟩

/-- A push payload whose `head_commit` key is present but `null`. -/
def payloadNullHC : JVal := .obj [("head_commit", .null)]

/-- The spec's push example payload. -/
def samplePushPayload : JVal := .obj
  [("ref", .str "refs/heads/main"),
   ("head_commit", .obj
     [("id", .str "aaaaaaaaaabbbbbbbbbbccccccccccdddddddddd"),
      ("timestamp", .str "2024-01-29T10:00:00Z"),
      ("author", .obj [("name", .str "alice")])]),
   ("pusher", .obj [("name", .str "alice")])]

/-- The record the code produces for `samplePushPayload`. -/
def samplePushRecord : EventRecord :=
  ⟨.str "aaaaaaaaaabbbbbbbbbbccccccccccdddddddddd", .str "alice", "PUSH",
   .str "main", .str "main", "2024-01-29 10:00:00 UTC"⟩

/-- The spec's merged-pull-request example payload. -/
def samplePRPayload : JVal := .obj
  [("action", .str "closed"),
   ("pull_request", .obj
     [("merged", .bool true),
      ("number", .num 42),
      ("user", .obj [("login", .str "bob")]),
      ("head", .obj [("ref", .str "feature-x")]),
      ("base", .obj [("ref", .str "main")]),
      ("updated_at", .str "2024-01-29T12:30:00+05:30")])]

/-! ### Store lemmas -/

theorem insertAll_oids (es : List EventRecord) :
    ∀ s : EventStore,
      (insertAll s es).records.map (fun e => e.oid) =
        s.records.map (fun e => e.oid) ++ List.range' s.nextId es.length ∧
      (insertAll s es).nextId = s.nextId + es.length := by
  induction es with
  | nil => intro s; simp [insertAll]
  | cons e es ih =>
    intro s
    have h := ih (insert_event s e).1
    simp only [insertAll, List.foldl_cons] at *
    refine ⟨?_, ?_⟩
    · rw [h.1]
      simp [insert_event, List.range'_succ]
    · rw [h.2]
      simp [insert_event]
      omega

/-- C3: across every sequence of successful `insert_event` calls the
assigned ids strictly increase with insertion order; in particular no
two stored records share an id and no later insert receives a smaller
id.  (The id is the store's — `insert_event` attaches `nextId` to the
normalizer's record, which carries no id field of its own.) -/
theorem insert_event_ids_strictly_increase (es : List EventRecord) :
    ((insertAll emptyStore es).records.map (fun e => e.oid)).Pairwise (· < ·) := by
  rw [(insertAll_oids es emptyStore).1]
  simpa [emptyStore] using List.pairwise_lt_range' 0 es.length 1

/-! ### Sorting lemmas -/


theorem char_toNat_inj {a b : Char} (h : a.toNat = b.toNat) : a = b := by
  apply Char.eq_of_val_eq
  unfold Char.toNat at h
  exact UInt32.toNat.inj h

theorem str_ext {s t : String} (h : s.data = t.data) : s = t := by
  cases s; cases t; cases h; rfl

theorem strLtb_irrefl : ∀ l : List Char, strLtb l l = false := by
  intro l
  induction l with
  | nil => rfl
  | cons a as ih => simp [strLtb, ih]

theorem strLtb_trans :
    ∀ a b c : List Char, strLtb a b = true → strLtb b c = true → strLtb a c = true := by
  intro a
  induction a with
  | nil =>
    intro b c h1 h2
    cases b with
    | nil => exact h2
    | cons x xs => cases c with
      | nil => simp [strLtb] at h2
      | cons y ys => rfl
  | cons x xs ih =>
    intro b c h1 h2
    cases b with
    | nil => simp [strLtb] at h1
    | cons y ys =>
      cases c with
      | nil => simp [strLtb] at h2
      | cons z zs =>
        simp only [strLtb, Bool.or_eq_true, Bool.and_eq_true, decide_eq_true_eq,
          beq_iff_eq] at h1 h2 ⊢
        rcases h1 with h1 | ⟨h1, h1'⟩ <;> rcases h2 with h2 | ⟨h2, h2'⟩
        · exact Or.inl (by omega)
        · exact Or.inl (by omega)
        · exact Or.inl (by omega)
        · exact Or.inr ⟨by omega, ih ys zs h1' h2'⟩

theorem strLtb_trichotomy :
    ∀ a b : List Char, strLtb a b = true ∨ strLtb b a = true ∨ a = b := by
  intro a
  induction a with
  | nil =>
    intro b
    cases b with
    | nil => exact Or.inr (Or.inr rfl)
    | cons y ys => exact Or.inl rfl
  | cons x xs ih =>
    intro b
    cases b with
    | nil => exact Or.inr (Or.inl rfl)
    | cons y ys =>
      rcases Nat.lt_trichotomy x.toNat y.toNat with h | h | h
      · exact Or.inl (by simp [strLtb, h])
      · rcases ih ys with h' | h' | h'
        · exact Or.inl (by simp [strLtb, h, h'])
        · exact Or.inr (Or.inl (by simp [strLtb, h.symm, h']))
        · exact Or.inr (Or.inr (by rw [char_toNat_inj h, h']))
      · exact Or.inr (Or.inl (by simp [strLtb, h]))

theorem idLeP_iff (a b : StoredEvent) : idLeP a b ↔ a.oid ≤ b.oid := by
  simp [idLeP, byIdLe]

theorem dispGe_iff (a b : StoredEvent) :
    dispGe a b ↔ (strLtb b.doc.timestamp.data a.doc.timestamp.data = true ∨
      (b.doc.timestamp = a.doc.timestamp ∧ b.oid ≤ a.oid)) := by
  simp [dispGe, byDisplayDesc]

theorem dispGe_trans (a b c : StoredEvent) :
    dispGe a b → dispGe b c → dispGe a c := by
  simp only [dispGe_iff]
  rintro (h1 | ⟨h1, h1'⟩) (h2 | ⟨h2, h2'⟩)
  · exact Or.inl (strLtb_trans _ _ _ h2 h1)
  · exact Or.inl (by rw [h2]; exact h1)
  · exact Or.inl (by rw [← h1]; exact h2)
  · exact Or.inr ⟨h2.trans h1, le_trans h2' h1'⟩

theorem dispGe_total (a b : StoredEvent) : dispGe a b ∨ dispGe b a := by
  simp only [dispGe_iff]
  rcases strLtb_trichotomy a.doc.timestamp.data b.doc.timestamp.data with h | h | h
  · exact Or.inr (Or.inl h)
  · exact Or.inl (Or.inl h)
  · have hts : a.doc.timestamp = b.doc.timestamp := str_ext h
    rcases Nat.le_total a.oid b.oid with h' | h'
    · exact Or.inr (Or.inr ⟨hts, h'⟩)
    · exact Or.inl (Or.inr ⟨hts.symm, h'⟩)

/-- The display sort really sorts: its output is pairwise `dispGe`. -/
theorem pairwise_dispGe_sort (l : List StoredEvent) :
    (l.insertionSort dispGe).Pairwise dispGe := by
  haveI : IsTotal StoredEvent dispGe := ⟨dispGe_total⟩
  haveI : IsTrans StoredEvent dispGe := ⟨dispGe_trans⟩
  exact List.sorted_insertionSort dispGe l

/-- The id sort really sorts. -/
theorem pairwise_idLeP_sort (l : List StoredEvent) :
    (l.insertionSort idLeP).Pairwise idLeP := by
  haveI : IsTotal StoredEvent idLeP := ⟨by
    intro a b
    simp only [idLeP_iff]
    omega⟩
  haveI : IsTrans StoredEvent idLeP := ⟨by
    intro a b c
    simp only [idLeP_iff]
    omega⟩
  exact List.sorted_insertionSort idLeP l

/-- Antisymmetry of the display order at the key level. -/
theorem dispGe_antisymm_key {a b : StoredEvent} (h1 : dispGe a b) (h2 : dispGe b a) :
    a.doc.timestamp = b.doc.timestamp ∧ a.oid = b.oid := by
  rw [dispGe_iff] at h1 h2
  rcases h1 with h1 | ⟨h1, h1'⟩ <;> rcases h2 with h2 | ⟨h2, h2'⟩
  · have := strLtb_trans _ _ _ h1 h2
    rw [strLtb_irrefl] at this
    exact absurd this (by simp)
  · rw [h2] at h1
    rw [strLtb_irrefl] at h1
    exact absurd h1 (by simp)
  · rw [h1] at h2
    rw [strLtb_irrefl] at h2
    exact absurd h2 (by simp)
  · exact ⟨h2, Nat.le_antisymm h2' h1'⟩

/-- Two display-sorted lists that are permutations of each other and
have no duplicate ids are equal (the sort result is unique). -/
theorem eq_of_perm_of_pairwise_dispGe :
    ∀ (l₁ l₂ : List StoredEvent), l₁.Perm l₂ →
      l₁.Pairwise dispGe → l₂.Pairwise dispGe →
      (l₂.map (fun e => e.oid)).Nodup → l₁ = l₂ := by
  intro l₁
  induction l₁ with
  | nil => intro l₂ hp _ _ _; exact (hp.symm.eq_nil).symm
  | cons a t₁ ih =>
    intro l₂ hp hs₁ hs₂ hnd
    cases l₂ with
    | nil => exact absurd hp.eq_nil (by simp)
    | cons b t₂ =>
      rw [List.pairwise_cons] at hs₁ hs₂
      have hab : a = b := by
        have ha : a ∈ b :: t₂ := hp.subset (List.mem_cons_self a t₁)
        have hb : b ∈ a :: t₁ := hp.symm.subset (List.mem_cons_self b t₂)
        rcases List.mem_cons.1 ha with h | ha'
        · exact h
        rcases List.mem_cons.1 hb with h | hb'
        · exact h.symm
        have h1 : dispGe a b := hs₁.1 b hb'
        have h2 : dispGe b a := hs₂.1 a ha'
        have hk := dispGe_antisymm_key h1 h2
        exfalso
        have : a.oid ∈ t₂.map (fun e => e.oid) := List.mem_map_of_mem _ ha'
        rw [List.map_cons, List.nodup_cons] at hnd
        exact hnd.1 (hk.2 ▸ this)
      subst hab
      have ht : t₁.Perm t₂ := hp.cons_inv
      rw [List.map_cons, List.nodup_cons] at hnd
      rw [ih t₂ ht hs₁.2 hs₂.2 hnd.2]

/-- `maxOid` is `none` exactly on the empty batch. -/
theorem maxOid_eq_none_iff (l : List StoredEvent) : maxOid l = none ↔ l = [] := by
  cases l <;> simp [maxOid, List.max?]

/-- `maxOid` returns a member that bounds every id in the batch. -/
theorem maxOid_spec (l : List StoredEvent) (m : Nat) (h : maxOid l = some m) :
    m ∈ l.map (fun e => e.oid) ∧ ∀ x ∈ l.map (fun e => e.oid), x ≤ m := by
  have := (List.max?_eq_some_iff (α := Nat)
    (fun a => Nat.le_refl a) (fun a b => max_choice a b)
    (fun a b c => Nat.max_le)).1 h
  exact this

/-- Conversely, a member that bounds every id is the `maxOid`. -/
theorem maxOid_eq_some (l : List StoredEvent) (m : Nat)
    (hm : m ∈ l.map (fun e => e.oid)) (hub : ∀ x ∈ l.map (fun e => e.oid), x ≤ m) :
    maxOid l = some m := by
  exact (List.max?_eq_some_iff (α := Nat)
    (fun a => Nat.le_refl a) (fun a b => max_choice a b)
    (fun a b c => Nat.max_le)).2 ⟨hm, hub⟩

/-! ### C2: the cursor query contract -/

theorem get_events_valid_cursor_eq (store : EventStore) (X L : Nat) :
    get_events store none (some (.valid X)) L =
      (((mongoTake L ((store.records.filter
          (fun e => decide (X < e.oid))).insertionSort idLeP)).insertionSort dispGe),
       maxOid ((mongoTake L ((store.records.filter
          (fun e => decide (X < e.oid))).insertionSort idLeP)).insertionSort dispGe)) := rfl

/-- C2: with a valid cursor `X` and limit `L ≥ 1`, `get_events` returns
exactly the first-`L`-in-id-order records with id `> X` (clause 2, up to
the display permutation), only records after the cursor and from the
store (clause 1), every omitted matching record has an id at least as
large as every returned one (clause 3), the batch is presented sorted by
(timestamp, id) descending (clause 4), and `latest_id` is `none` iff the
batch is empty and otherwise the maximum id of the batch (clauses 5-6).
The call is pure in the model (the store is not part of the result), so
repeating it against an unchanged store gives the same result
definitionally. -/
theorem get_events_cursor_query_contract (store : EventStore) (X L : Nat) (hL : 1 ≤ L) :
    (∀ e ∈ (get_events store none (some (.valid X)) L).1, X < e.oid ∧ e ∈ store.records) ∧
    (get_events store none (some (.valid X)) L).1.Perm
      (((store.records.filter (fun e => decide (X < e.oid))).insertionSort idLeP).take L) ∧
    (∀ e ∈ (get_events store none (some (.valid X)) L).1,
      ∀ f ∈ store.records.filter (fun e => decide (X < e.oid)),
        f ∉ (get_events store none (some (.valid X)) L).1 → e.oid ≤ f.oid) ∧
    (get_events store none (some (.valid X)) L).1.Pairwise dispGe ∧
    ((get_events store none (some (.valid X)) L).2 = none ↔
      (get_events store none (some (.valid X)) L).1 = []) ∧
    (∀ m, (get_events store none (some (.valid X)) L).2 = some m →
      m ∈ (get_events store none (some (.valid X)) L).1.map (fun e => e.oid) ∧
      ∀ e ∈ (get_events store none (some (.valid X)) L).1, e.oid ≤ m) := by
  have hmt : mongoTake L ((store.records.filter
      (fun e => decide (X < e.oid))).insertionSort idLeP) =
      ((store.records.filter (fun e => decide (X < e.oid))).insertionSort idLeP).take L := by
    unfold mongoTake
    rw [if_neg (by omega)]
  rw [get_events_valid_cursor_eq, hmt]
  set F := store.records.filter (fun e => decide (X < e.oid)) with hF
  set S := F.insertionSort idLeP with hS
  set T := S.take L with hT
  set E := T.insertionSort dispGe with hE
  have hmemTS : ∀ e, e ∈ T → e ∈ S := fun e he => List.take_subset L S he
  have hmemEF : ∀ e, e ∈ E → e ∈ F := by
    intro e he
    rw [hE, List.mem_insertionSort] at he
    exact (List.mem_insertionSort idLeP).1 (hmemTS e he)
  refine ⟨?_, ?_, ?_, ?_, ?_, ?_⟩
  · intro e he
    have hf := hmemEF e he
    rw [hF, List.mem_filter] at hf
    exact ⟨by simpa using hf.2, hf.1⟩
  · exact List.perm_insertionSort dispGe T
  · intro e he f hf hfE
    have heT : e ∈ T := (List.mem_insertionSort dispGe).1 he
    have hfS : f ∈ S := by
      rw [hS, List.mem_insertionSort]
      exact hf
    have hfT : f ∉ T := fun hc => hfE ((List.mem_insertionSort dispGe).2 hc)
    have hsplit : T ++ S.drop L = S := by rw [hT]; exact List.take_append_drop L S
    have hfD : f ∈ S.drop L := by
      rcases List.mem_append.1 (by rw [hsplit]; exact hfS) with h | h
      · exact absurd h hfT
      · exact h
    have hsorted : S.Pairwise idLeP := by
      rw [hS]
      exact pairwise_idLeP_sort F
    have := (List.pairwise_append.1 (by rw [hsplit]; exact hsorted)).2.2 e heT f hfD
    simpa [idLeP_iff] using this
  · exact pairwise_dispGe_sort T
  · exact maxOid_eq_none_iff E
  · intro m hm
    have h := maxOid_spec E m hm
    exact ⟨h.1, fun e he => h.2 e.oid (List.mem_map_of_mem _ he)⟩

theorem get_events_cursor_query_contract_witness :
    (get_events store2 none (some (.valid 0)) 5).1.Perm
      (((store2.records.filter (fun e => decide (0 < e.oid))).insertionSort idLeP).take 5) :=
  (get_events_cursor_query_contract store2 0 5 (by omega)).2.1

/-! ### C8: malformed cursor recovery -/

/-- C8 (amended): a malformed non-empty cursor is never rejected — it is
treated as a cursor query with no id bound (`query = {}` inside the
cursor branch).  That branch serves the oldest `L` records in insertion
order, so it coincides with the cursor-less call exactly when the limit
covers the whole store (first conjunct, stated under `records.length ≤ L`
with duplicate-free ids as the store guarantees); a malformed *empty*
cursor is falsy and literally takes the cursor-less branch (second
conjunct). -/
theorem get_events_malformed_cursor_recovery (store : EventStore) (L : Nat)
    (mal : String) (hmal : mal ≠ "")
    (hlen : store.records.length ≤ L) (hL : 1 ≤ L)
    (hnd : (store.records.map (fun e => e.oid)).Nodup) :
    get_events store none (some (.invalid mal)) L = get_events store none none L ∧
    ∀ (since : Option String) (L' : Nat),
      get_events store since (some (.invalid "")) L' = get_events store since none L' := by
  constructor
  · have htr : cursorTruthy (some (.invalid mal)) = true := by
      simp [cursorTruthy, hmal]
    unfold get_events
    rw [htr]
    simp only [if_true, cursorTruthy, if_false, Bool.false_eq_true]
    rw [List.filter_true]
    have hlenS : (store.records.insertionSort idLeP).length ≤ L :=
      le_trans (le_of_eq (List.perm_insertionSort idLeP store.records).length_eq) hlen
    have hlenD : (store.records.insertionSort dispGe).length ≤ L :=
      le_trans (le_of_eq (List.perm_insertionSort dispGe store.records).length_eq) hlen
    have h1 : mongoTake L (store.records.insertionSort idLeP) =
        store.records.insertionSort idLeP := by
      unfold mongoTake
      rw [if_neg (by omega), List.take_of_length_le hlenS]
    have h2 : mongoTake L (store.records.insertionSort dispGe) =
        store.records.insertionSort dispGe := by
      unfold mongoTake
      rw [if_neg (by omega), List.take_of_length_le hlenD]
    rw [h1, h2]
    have hperm : ((store.records.insertionSort idLeP).insertionSort dispGe).Perm
        (store.records.insertionSort dispGe) := by
      refine ((List.perm_insertionSort dispGe _).trans
        (List.perm_insertionSort idLeP _)).trans ?_
      exact (List.perm_insertionSort dispGe store.records).symm
    have hnd2 : ((store.records.insertionSort dispGe).map (fun e => e.oid)).Nodup :=
      ((List.perm_insertionSort dispGe store.records).symm.map (fun e => e.oid)).nodup hnd
    have heq : (store.records.insertionSort idLeP).insertionSort dispGe =
        store.records.insertionSort dispGe :=
      eq_of_perm_of_pairwise_dispGe _ _ hperm
        (pairwise_dispGe_sort _) (pairwise_dispGe_sort _) hnd2
    rw [heq]
  · intro since L'
    rfl

theorem get_events_malformed_cursor_recovery_witness :
    get_events store2 none (some (.invalid "zz")) 2 = get_events store2 none none 2 :=
  (get_events_malformed_cursor_recovery store2 2 "zz" (by decide)
    (by decide) (by decide) (by decide)).1

/-- C8 counterexample: with two records of equal timestamp and
`limit = 1`, the malformed-cursor call returns the oldest record
(`latest_id = 0`) while the cursor-less call returns the newest
(`latest_id = 1`) — not the same result, contrary to the claim. -/
theorem get_events_malformed_cursor_cex :
    (get_events store2 none (some (.invalid "x")) 1).2 ≠
      (get_events store2 none none 1).2 := by decide

/-! ### C1: draining the store through the cursor protocol -/

theorem get_events_none_eq (store : EventStore) (L : Nat) :
    get_events store none none L =
      (mongoTake L ((store.records.filter (fun _ => true)).insertionSort dispGe),
       maxOid (mongoTake L ((store.records.filter (fun _ => true)).insertionSort dispGe))) :=
  rfl

theorem store_oids (es : List EventRecord) :
    (insertAll emptyStore es).records.map (fun e => e.oid) = List.range' 0 es.length := by
  rw [(insertAll_oids es emptyStore).1]
  simp [emptyStore]

theorem store_oid_lt (es : List EventRecord) (e : StoredEvent)
    (he : e ∈ (insertAll emptyStore es).records) : e.oid < es.length := by
  have hm : e.oid ∈ (insertAll emptyStore es).records.map (fun e => e.oid) :=
    List.mem_map_of_mem _ he
  rw [store_oids] at hm
  have := List.mem_range'_1.1 hm
  omega

/-- C1 (amended): inserting any records (arbitrary, colliding or
out-of-order timestamps included) and draining through the protocol —
first call without a cursor, then always passing the returned
`latest_id` — returns every inserted record exactly once, provided the
fixed limit is at least the number of inserted records, so that the
initial cursor-less call (which serves the newest `limit` records by
display order, not by insertion order) covers the whole backlog. -/
theorem drain_returns_all_records (es : List EventRecord) (L fuel : Nat)
    (hL : es.length ≤ L) (hL1 : 1 ≤ L) (hfuel : 1 ≤ fuel) :
    (drainPoll (insertAll emptyStore es) L none fuel).Perm
      (insertAll emptyStore es).records := by
  obtain ⟨f, rfl⟩ : ∃ f, fuel = f + 1 := ⟨fuel - 1, by omega⟩
  have hlen : (insertAll emptyStore es).records.length = es.length := by
    have := congrArg List.length (store_oids es)
    simpa using this
  have hfirst : get_events (insertAll emptyStore es) none none L =
      ((insertAll emptyStore es).records.insertionSort dispGe,
       maxOid ((insertAll emptyStore es).records.insertionSort dispGe)) := by
    rw [get_events_none_eq, List.filter_true]
    unfold mongoTake
    rw [if_neg (by omega), List.take_of_length_le (by
      rw [(List.perm_insertionSort dispGe _).length_eq, hlen]
      exact hL)]
  have hstep : drainPoll (insertAll emptyStore es) L none (f + 1) =
      (if ((insertAll emptyStore es).records.insertionSort dispGe).isEmpty then []
       else ((insertAll emptyStore es).records.insertionSort dispGe) ++
         drainPoll (insertAll emptyStore es) L
           (maxOid ((insertAll emptyStore es).records.insertionSort dispGe)) f) := by
    show (let res := get_events (insertAll emptyStore es) none (Option.map CursorStr.valid none) L
          if res.1.isEmpty then []
          else res.1 ++ drainPoll (insertAll emptyStore es) L res.2 f) = _
    rw [show Option.map CursorStr.valid none = none from rfl, hfirst]
  rw [hstep]
  rcases eq_or_ne (insertAll emptyStore es).records [] with hrec | hrec
  · rw [hrec]
    simp
  · have hne : ((insertAll emptyStore es).records.insertionSort dispGe) ≠ [] := by
      intro hc
      have := (List.perm_insertionSort dispGe (insertAll emptyStore es).records).length_eq
      rw [hc] at this
      exact hrec (List.eq_nil_of_length_eq_zero this.symm)
    rw [if_neg (by simpa [List.isEmpty_iff] using hne)]
    have hn1 : 1 ≤ es.length := by
      rw [← hlen]
      have := List.length_pos.2 hrec
      omega
    have hmax : maxOid ((insertAll emptyStore es).records.insertionSort dispGe) =
        some (es.length - 1) := by
      apply maxOid_eq_some
      · have hperm : (((insertAll emptyStore es).records.insertionSort dispGe).map
            (fun e => e.oid)).Perm (List.range' 0 es.length) := by
          rw [← store_oids]
          exact (List.perm_insertionSort dispGe _).map _
        rw [hperm.mem_iff, List.mem_range'_1]
        omega
      · intro x hx
        have hperm : (((insertAll emptyStore es).records.insertionSort dispGe).map
            (fun e => e.oid)).Perm (List.range' 0 es.length) := by
          rw [← store_oids]
          exact (List.perm_insertionSort dispGe _).map _
        rw [hperm.mem_iff, List.mem_range'_1] at hx
        omega
    rw [hmax]
    have hsecond : drainPoll (insertAll emptyStore es) L (some (es.length - 1)) f = [] := by
      have hfilter : (insertAll emptyStore es).records.filter
          (fun e => decide (es.length - 1 < e.oid)) = [] := by
        rw [List.filter_eq_nil_iff]
        intro e he
        have := store_oid_lt es e he
        simp only [decide_eq_true_eq]
        omega
      cases f with
      | zero => rfl
      | succ f' =>
        show (let res := get_events (insertAll emptyStore es) none
                (Option.map CursorStr.valid (some (es.length - 1))) L
              if res.1.isEmpty then []
              else res.1 ++ drainPoll (insertAll emptyStore es) L res.2 f') = []
        rw [show Option.map CursorStr.valid (some (es.length - 1)) =
            some (.valid (es.length - 1)) from rfl]
        rw [get_events_valid_cursor_eq, hfilter]
        simp [mongoTake]
    rw [hsecond, List.append_nil]
    exact List.perm_insertionSort dispGe _

theorem drain_returns_all_records_witness :
    (drainPoll (insertAll emptyStore [sampleRecord, sampleRecord]) 2 none 2).Perm
      (insertAll emptyStore [sampleRecord, sampleRecord]).records :=
  drain_returns_all_records [sampleRecord, sampleRecord] 2 2 (by decide) (by decide)
    (by decide)

/-- C1 counterexample: two inserts with identical timestamps drained
with `limit = 1` (claim allows any limit ≥ 1): the drain returns only
the record with id 1 — the record with id 0 is never delivered, because
the initial cursor-less call serves the newest record and advances
`latest_id` past the other one.  So the union of the batches does not
contain each inserted record exactly once. -/
theorem drain_misses_record_cex :
    (drainPoll store2 1 none 3).map (fun e => e.oid) = [1] ∧
      store2.records.map (fun e => e.oid) = [0, 1] := by decide

/-! ### Parser inversion lemmas -/

theorem parse_push_eventE_ok_inv (now : CivilTime) (p : JVal) (r : EventRecord)
    (h : parse_push_eventE now p = .ok r) :
    r.action = ACTION_PUSH ∧ r.from_branch = r.to_branch ∧
    ∃ s : String, pyGet p "ref" (.str "") = .ok (.str s) ∧
      r.from_branch = .str (branchOfRef s) := by
  unfold parse_push_eventE at h
  simp only [bind, Except.bind, pure, Except.pure] at h
  repeat' split at h
  all_goals first
    | exact Except.noConfusion h
    | (injection h with h; subst h; exact ⟨rfl, rfl, _, by assumption, rfl⟩)

theorem prBuild_action_inv (now : CivilTime) (pr : JVal) (act : String) (r : EventRecord)
    (h : prBuild now pr act = .ok (some r)) : r.action = act := by
  unfold prBuild at h
  simp only [bind, Except.bind, pure, Except.pure] at h
  repeat' split at h
  all_goals first
    | exact Except.noConfusion h
    | (injection h with h; injection h with h; subst h; rfl)

theorem parse_pull_request_eventE_ok_inv (now : CivilTime) (p : JVal) (r : EventRecord)
    (h : parse_pull_request_eventE now p = .ok (some r)) :
    r.action = ACTION_MERGE ∨ r.action = ACTION_PULL_REQUEST := by
  unfold parse_pull_request_eventE at h
  simp only [bind, Except.bind] at h
  cases h1 : pyGet p "pull_request" (.obj []) with
  | error u => simp only [h1] at h; exact Except.noConfusion h
  | ok pr =>
    simp only [h1] at h
    cases h2 : pyGet p "action" (.str "") with
    | error u => simp only [h2] at h; exact Except.noConfusion h
    | ok act =>
      simp only [h2] at h
      cases h3 : pyGet pr "merged" (.bool false) with
      | error u => simp only [h3] at h; exact Except.noConfusion h
      | ok m =>
        simp only [h3] at h
        split_ifs at h
        · exact Or.inl (prBuild_action_inv _ _ _ _ h)
        · exact Or.inr (prBuild_action_inv _ _ _ _ h)
        · simp only [pure, Except.pure] at h
          injection h with h
          exact Option.noConfusion h
        · exact Or.inr (prBuild_action_inv _ _ _ _ h)

/-! ### C9: the normalizer boundary never raises and drops unknown kinds -/

/-- C9: `parse_github_webhook` is a total function into
`Option EventRecord` — in the embedding every exception inside the
parsers is caught and collapsed to `none`, so nothing crosses the
ingestion boundary — every event-kind label other than `"push"` and
`"pull_request"` (including a connectivity-check `"ping"`) yields the
`none` sentinel, and any produced record carries one of the three
closed-set actions (fully populated by construction of the record
type). -/
theorem parse_github_webhook_never_raises (now : CivilTime) (payload : JVal) (k : String) :
    (k ≠ GITHUB_EVENT_PUSH → k ≠ GITHUB_EVENT_PULL_REQUEST →
      parse_github_webhook now payload k = none) ∧
    (∀ r, parse_github_webhook now payload k = some r →
      r.action = ACTION_PUSH ∨ r.action = ACTION_PULL_REQUEST ∨ r.action = ACTION_MERGE) := by
  constructor
  · intro h1 h2
    unfold parse_github_webhook
    rw [if_neg h1, if_neg h2]
  · intro r hr
    unfold parse_github_webhook at hr
    split_ifs at hr
    · unfold parse_push_event at hr
      cases he : parse_push_eventE now payload with
      | error u => rw [he] at hr; exact absurd hr (by simp [Except.toOption])
      | ok a =>
        rw [he] at hr
        simp only [Except.toOption] at hr
        injection hr with hr
        subst hr
        exact Or.inl (parse_push_eventE_ok_inv now payload a he).1
    · unfold parse_pull_request_event at hr
      cases he : parse_pull_request_eventE now payload with
      | error u => simp only [he] at hr; exact Option.noConfusion hr
      | ok o =>
        simp only [he] at hr
        subst hr
        rcases parse_pull_request_eventE_ok_inv now payload r he with h | h
        · exact Or.inr (Or.inr h)
        · exact Or.inr (Or.inl h)

theorem parse_github_webhook_never_raises_witness :
    parse_github_webhook now2024 (.obj []) "ping" = none :=
  (parse_github_webhook_never_raises now2024 (.obj []) "ping").1 (by decide) (by decide)

/-! ### C4: the pull-request decision table -/

theorem isObjOrAbsent_getD (fs : List (String × JVal)) (k : String)
    (h : isObjOrAbsent (jlookup fs k) = true) :
    ∃ gs, (jlookup fs k).getD (.obj []) = .obj gs := by
  cases hj : jlookup fs k with
  | none => exact ⟨[], rfl⟩
  | some v =>
    rw [hj] at h
    cases v
    case obj gs => exact ⟨gs, rfl⟩
    all_goals simp [isObjOrAbsent] at h

theorem timestamp_jval_ok (now : CivilTime) (v : JVal) (h : strOrFalsy v = true) :
    ∃ s, timestamp_to_utc_jval now v = .ok s := by
  unfold timestamp_to_utc_jval
  cases hv : pyTruthy v
  · exact ⟨fmtCT now, rfl⟩
  · cases v with
    | str s => exact ⟨timestamp_to_utc_str now s, rfl⟩
    | null => simp_all [strOrFalsy, pyTruthy]
    | bool b => simp_all [strOrFalsy, pyTruthy]
    | num n => simp_all [strOrFalsy, pyTruthy]
    | arr xs => simp_all [strOrFalsy, pyTruthy]
    | obj fs => simp_all [strOrFalsy, pyTruthy]

theorem prBuild_ok (now : CivilTime) (prf : List (String × JVal)) (act : String)
    (huser : isObjOrAbsent (jlookup prf "user") = true)
    (hhead : isObjOrAbsent (jlookup prf "head") = true)
    (hbase : isObjOrAbsent (jlookup prf "base") = true)
    (hts : prTsOk prf = true) :
    ∃ r, prBuild now (.obj prf) act = .ok (some r) ∧ r.action = act := by
  obtain ⟨ug, hug⟩ := isObjOrAbsent_getD prf "user" huser
  obtain ⟨hg, hhg⟩ := isObjOrAbsent_getD prf "head" hhead
  obtain ⟨bg, hbg⟩ := isObjOrAbsent_getD prf "base" hbase
  unfold prBuild
  simp only [bind, Except.bind, pure, Except.pure, pyGet, hug, hhg, hbg]
  unfold prTsOk at hts
  replace hts : strOrFalsy
      (if pyTruthy ((jlookup prf "updated_at").getD (.str "")) = true then
        (jlookup prf "updated_at").getD (.str "")
      else (jlookup prf "created_at").getD (.str "")) = true := hts
  split
  case isTrue hcond =>
    rw [if_pos hcond] at hts
    obtain ⟨s, hsv⟩ := timestamp_jval_ok now _ hts
    simp only [hsv]
    exact ⟨_, rfl, rfl⟩
  case isFalse hcond =>
    rw [if_neg hcond] at hts
    obtain ⟨s, hsv⟩ := timestamp_jval_ok now _ hts
    simp only [hsv]
    exact ⟨_, rfl, rfl⟩

/-- C4: the decision table of `_parse_pull_request_event` on
`(action verb, merged flag)` for a payload whose `pull_request` object
is well-typed enough for the record build to succeed: `closed` with
truthy `merged` gives `MERGE`; `opened` gives `PULL_REQUEST` for any
merged value; `closed` with falsy `merged` gives `PULL_REQUEST`; every
other verb (e.g. `synchronize`, `labeled`) yields the `none` sentinel
before any further field is accessed. -/
theorem pull_request_decision_table (now : CivilTime)
    (pf prf : List (String × JVal)) (verb : String) (m : JVal)
    (hpr : jlookup pf "pull_request" = some (.obj prf))
    (hverb : (jlookup pf "action").getD (.str "") = .str verb)
    (hm : (jlookup prf "merged").getD (.bool false) = m)
    (huser : isObjOrAbsent (jlookup prf "user") = true)
    (hhead : isObjOrAbsent (jlookup prf "head") = true)
    (hbase : isObjOrAbsent (jlookup prf "base") = true)
    (hts : prTsOk prf = true) :
    (pyTruthy m = true → verb = "closed" →
      ∃ r, parse_github_webhook now (.obj pf) GITHUB_EVENT_PULL_REQUEST = some r ∧
        r.action = ACTION_MERGE) ∧
    (verb = "opened" →
      ∃ r, parse_github_webhook now (.obj pf) GITHUB_EVENT_PULL_REQUEST = some r ∧
        r.action = ACTION_PULL_REQUEST) ∧
    (pyTruthy m = false → verb = "closed" →
      ∃ r, parse_github_webhook now (.obj pf) GITHUB_EVENT_PULL_REQUEST = some r ∧
        r.action = ACTION_PULL_REQUEST) ∧
    (verb ≠ "opened" → verb ≠ "closed" →
      parse_github_webhook now (.obj pf) GITHUB_EVENT_PULL_REQUEST = none) := by
  have hmain : parse_pull_request_eventE now (.obj pf) =
      (if pyTruthy m && (verb == "closed") then prBuild now (.obj prf) ACTION_MERGE
       else if verb == "opened" then prBuild now (.obj prf) ACTION_PULL_REQUEST
       else if !((verb == "opened") || (verb == "closed")) then pure none
       else prBuild now (.obj prf) ACTION_PULL_REQUEST) := by
    unfold parse_pull_request_eventE
    simp only [bind, Except.bind, pyGet, hpr, Option.getD_some, hverb, hm, jvalEqStr]
  have hpw : parse_github_webhook now (.obj pf) GITHUB_EVENT_PULL_REQUEST =
      parse_pull_request_event now (.obj pf) := rfl
  refine ⟨?_, ?_, ?_, ?_⟩
  · rintro hmt rfl
    obtain ⟨r, hr, ha⟩ := prBuild_ok now prf ACTION_MERGE huser hhead hbase hts
    refine ⟨r, ?_, ha⟩
    rw [hpw]
    unfold parse_pull_request_event
    rw [hmain]
    simp [hmt, hr]
  · rintro rfl
    obtain ⟨r, hr, ha⟩ := prBuild_ok now prf ACTION_PULL_REQUEST huser hhead hbase hts
    refine ⟨r, ?_, ha⟩
    rw [hpw]
    unfold parse_pull_request_event
    rw [hmain]
    simp [hr]
  · rintro hmf rfl
    obtain ⟨r, hr, ha⟩ := prBuild_ok now prf ACTION_PULL_REQUEST huser hhead hbase hts
    refine ⟨r, ?_, ha⟩
    rw [hpw]
    unfold parse_pull_request_event
    rw [hmain]
    simp [hmf, hr]
  · intro h1 h2
    rw [hpw]
    unfold parse_pull_request_event
    rw [hmain]
    simp [h1, h2, pure, Except.pure]

theorem pull_request_decision_table_witness :
    ∃ r, parse_github_webhook now2024 samplePRPayload GITHUB_EVENT_PULL_REQUEST = some r ∧
      r.action = ACTION_MERGE :=
  (pull_request_decision_table now2024
    [("action", .str "closed"),
     ("pull_request", .obj
       [("merged", .bool true),
        ("number", .num 42),
        ("user", .obj [("login", .str "bob")]),
        ("head", .obj [("ref", .str "feature-x")]),
        ("base", .obj [("ref", .str "main")]),
        ("updated_at", .str "2024-01-29T12:30:00+05:30")])]
    [("merged", .bool true),
     ("number", .num 42),
     ("user", .obj [("login", .str "bob")]),
     ("head", .obj [("ref", .str "feature-x")]),
     ("base", .obj [("ref", .str "main")]),
     ("updated_at", .str "2024-01-29T12:30:00+05:30")]
    "closed" (.bool true)
    rfl rfl rfl rfl rfl rfl (by decide)).1 rfl rfl

/-! ### C7: push branch normalization -/

theorem removeHeads_append (t : List Char) :
    removeHeads (refsHeadsChars ++ t) = removeHeads t := rfl

/-- C7 (amended): when the push parser produces a record, its action is
`PUSH` and `from_branch = to_branch`; for a string `ref`, a ref starting
with `"refs/heads/"` yields the ref with **every** occurrence of
`"refs/heads/"` removed (Python `str.replace` removes all occurrences,
not only the leading one — clause 3), any other ref is kept raw
(clause 4); when the prefix occurs exactly once, at the head (the
remainder is a `removeHeads` fixed point), the result is the remainder
with that one leading prefix removed, as the claim states (clause 5). -/
theorem push_branch_normalization (now : CivilTime)
    (pf : List (String × JVal)) (s : String) (r : EventRecord)
    (href : jlookup pf "ref" = some (.str s))
    (h : parse_github_webhook now (.obj pf) GITHUB_EVENT_PUSH = some r) :
    r.action = ACTION_PUSH ∧
    r.from_branch = r.to_branch ∧
    (refsHeadsChars.isPrefixOf s.data = true →
      r.from_branch = .str ⟨removeHeads s.data⟩) ∧
    (refsHeadsChars.isPrefixOf s.data = false → r.from_branch = .str s) ∧
    (∀ t : List Char, s.data = refsHeadsChars ++ t → removeHeads t = t →
      r.from_branch = .str ⟨t⟩) := by
  have hE : parse_push_eventE now (.obj pf) = .ok r := by
    have hp : parse_github_webhook now (.obj pf) GITHUB_EVENT_PUSH =
        parse_push_event now (.obj pf) := rfl
    rw [hp] at h
    unfold parse_push_event at h
    cases he : parse_push_eventE now (.obj pf) with
    | error u => rw [he] at h; exact absurd h (by simp [Except.toOption])
    | ok a =>
      rw [he] at h
      simp only [Except.toOption] at h
      injection h with h
      rw [h]
  obtain ⟨ha, hft, s', hs', hfb⟩ := parse_push_eventE_ok_inv now (.obj pf) r hE
  have hss : s' = s := by
    rw [show pyGet (.obj pf) "ref" (.str "") =
        .ok ((jlookup pf "ref").getD (.str "")) from rfl, href] at hs'
    injection hs' with hs'
    injection hs' with hs'
    exact hs'.symm
  subst hss
  refine ⟨ha, hft, ?_, ?_, ?_⟩
  · intro hpre
    rw [hfb]
    unfold branchOfRef
    rw [if_pos hpre]
  · intro hpre
    rw [hfb]
    unfold branchOfRef
    rw [if_neg (by simp [hpre])]
  · intro t hdata hfix
    rw [hfb]
    unfold branchOfRef
    rw [if_pos (by
      rw [hdata]
      rw [List.isPrefixOf_iff_prefix]
      exact List.prefix_append _ _)]
    rw [hdata, removeHeads_append, hfix]

theorem push_branch_normalization_witness :
    samplePushRecord.action = ACTION_PUSH ∧
    samplePushRecord.from_branch = samplePushRecord.to_branch ∧
    (refsHeadsChars.isPrefixOf "refs/heads/main".data = true →
      samplePushRecord.from_branch = .str ⟨removeHeads "refs/heads/main".data⟩) ∧
    (refsHeadsChars.isPrefixOf "refs/heads/main".data = false →
      samplePushRecord.from_branch = .str "refs/heads/main") ∧
    (∀ t : List Char, "refs/heads/main".data = refsHeadsChars ++ t → removeHeads t = t →
      samplePushRecord.from_branch = .str ⟨t⟩) :=
  push_branch_normalization now2024
    [("ref", .str "refs/heads/main"),
     ("head_commit", .obj
       [("id", .str "aaaaaaaaaabbbbbbbbbbccccccccccdddddddddd"),
        ("timestamp", .str "2024-01-29T10:00:00Z"),
        ("author", .obj [("name", .str "alice")])]),
     ("pusher", .obj [("name", .str "alice")])]
    "refs/heads/main" samplePushRecord rfl (by rfl)

/-- C7 counterexample: a ref containing the prefix twice.  The code
strips **all** occurrences (`str.replace`), producing branch `"main"`,
not `"refs/heads/main"` as "exactly that one leading prefix removed"
would give. -/
theorem push_branch_normalization_cex :
    parse_github_webhook now2024 payloadDoubleRef GITHUB_EVENT_PUSH = some pushRefRecord ∧
    pushRefRecord.from_branch = .str "main" ∧
    pushRefRecord.from_branch ≠ .str "refs/heads/main" := by
  refine ⟨by rfl, rfl, ?_⟩
  intro hc
  injection hc with hc
  exact absurd hc (by decide)

/-! ### C10: reachability of the push parser's failure branch -/

/-- C10 (amended): the `.get` defaults protect only against *absent*
keys, so the `None` branch is reachable for dict payloads (see the
counterexample); but for every dict payload whose relevant fields, when
present, are well-typed (`wellTypedPush`), a record is always produced,
and the empty dict yields exactly the record with empty-string
`request_id`, `author` and branches, action `PUSH`, and the current
wall-clock timestamp. -/
theorem push_parser_totality (now : CivilTime) (p : JVal)
    (hwt : wellTypedPush p = true) :
    (∃ r, parse_github_webhook now p GITHUB_EVENT_PUSH = some r) ∧
    parse_github_webhook now (.obj []) GITHUB_EVENT_PUSH =
      some ⟨.str "", .str "", ACTION_PUSH, .str "", .str "", fmtCT now⟩ := by
  refine ⟨?_, by rfl⟩
  cases p with
  | null => simp [wellTypedPush] at hwt
  | bool b => simp [wellTypedPush] at hwt
  | num n => simp [wellTypedPush] at hwt
  | str s => simp [wellTypedPush] at hwt
  | arr xs => simp [wellTypedPush] at hwt
  | obj fs =>
    simp only [wellTypedPush] at hwt
    cases hhc : (jlookup fs "head_commit").getD (.obj []) with
    | obj hcf =>
      simp only [hhc] at hwt
      simp only [Bool.and_eq_true] at hwt
      obtain ⟨⟨⟨⟨hcid, hpush⟩, hauth⟩, href⟩, hts⟩ := hwt
      obtain ⟨pg, hpg⟩ := isObjOrAbsent_getD fs "pusher" hpush
      obtain ⟨ag, hag⟩ := isObjOrAbsent_getD hcf "author" hauth
      have hpw : parse_github_webhook now (.obj fs) GITHUB_EVENT_PUSH =
          parse_push_event now (.obj fs) := rfl
      rw [hpw]
      unfold parse_push_event
      suffices hsuf : ∃ r, parse_push_eventE now (.obj fs) = .ok r by
        obtain ⟨r, hr⟩ := hsuf
        exact ⟨r, by rw [hr]; rfl⟩
      unfold parse_push_eventE
      simp only [bind, Except.bind, pure, Except.pure, pyGet, hhc, hpg, hag]
      obtain ⟨rs, hrs⟩ : ∃ rs, (jlookup fs "ref").getD (.str "") = .str rs := by
        cases hr : (jlookup fs "ref").getD (.str "") <;> rw [hr] at href <;>
          first
            | exact ⟨_, rfl⟩
            | exact absurd href (by simp)
      rw [hrs]
      obtain ⟨ts, hts2⟩ := timestamp_jval_ok now _ hts
      rw [hts2]
      replace hcid : (match (if pyTruthy ((jlookup hcf "id").getD JVal.null) = true then
          (jlookup hcf "id").getD JVal.null
        else (jlookup fs "after").getD (JVal.str "")) with
        | JVal.str _ => true
        | JVal.arr _ => true
        | v => !pyTruthy v) = true := hcid
      by_cases hc1 : pyTruthy ((jlookup hcf "id").getD JVal.null) = true
      · simp only [hc1, if_true] at hcid ⊢
        by_cases hc2 : pyTruthy ((jlookup pg "name").getD (JVal.str "")) = true
        all_goals first
          | rw [if_pos hc2]
          | rw [if_neg hc2]
        all_goals
          cases hX : (jlookup hcf "id").getD JVal.null with
          | str s2 => exact ⟨_, rfl⟩
          | arr xs2 => exact ⟨_, rfl⟩
          | null => rw [hX] at hc1; simp [pyTruthy] at hc1
          | bool b => rw [hX] at hc1 hcid; simp [pyTruthy] at hc1 hcid; simp_all
          | num n => rw [hX] at hc1 hcid; simp [pyTruthy] at hc1 hcid; simp_all
          | obj og => rw [hX] at hc1 hcid; simp [pyTruthy] at hc1 hcid; simp_all
      · simp only [hc1, Bool.false_eq_true, if_false] at hcid ⊢
        by_cases hc2 : pyTruthy ((jlookup pg "name").getD (JVal.str "")) = true
        all_goals first
          | rw [if_pos hc2]
          | rw [if_neg hc2]
        all_goals by_cases hc3 : pyTruthy ((jlookup fs "after").getD (JVal.str "")) = true
        all_goals first
          | (rw [if_neg hc3]; exact ⟨_, rfl⟩)
          | rw [if_pos hc3]
        all_goals
          cases hX : (jlookup fs "after").getD (JVal.str "") with
          | str s2 => exact ⟨_, rfl⟩
          | arr xs2 => exact ⟨_, rfl⟩
          | null => rw [hX] at hc3; simp [pyTruthy] at hc3
          | bool b => rw [hX] at hc3 hcid; simp [pyTruthy] at hc3 hcid; simp_all
          | num n => rw [hX] at hc3 hcid; simp [pyTruthy] at hc3 hcid; simp_all
          | obj og => rw [hX] at hc3 hcid; simp [pyTruthy] at hc3 hcid; simp_all
    | null => simp [hhc] at hwt
    | bool b => simp [hhc] at hwt
    | num n => simp [hhc] at hwt
    | str s => simp [hhc] at hwt
    | arr xs => simp [hhc] at hwt

theorem push_parser_totality_witness :
    (∃ r, parse_github_webhook now2024 (.obj []) GITHUB_EVENT_PUSH = some r) ∧
    parse_github_webhook now2024 (.obj []) GITHUB_EVENT_PUSH =
      some ⟨.str "", .str "", ACTION_PUSH, .str "", .str "", fmtCT now2024⟩ :=
  push_parser_totality now2024 (.obj []) (by decide)

/-- C10 counterexample: the dict payload `{"head_commit": null}` reaches
the `None` branch — `payload.get("head_commit", {})` returns `null`
because the key is *present*, and `null.get(...)` raises inside the
`try` — so the structural-failure branch is reachable for dict input,
contrary to the claim. -/
theorem push_parser_none_reachable_cex :
    parse_github_webhook now2024 payloadNullHC GITHUB_EVENT_PUSH = none := by rfl

/-! ### Calendar-range lemmas for the civil conversion -/

set_option maxHeartbeats 1000000 in
theorem civil_doy_core (a b c d e f g : Int)
    (ha0 : 0 ≤ a) (ha1 : a ≤ 146096)
    (he : 1460 * e ≤ a ∧ a < 1460 * (e + 1))
    (hf : 36524 * f ≤ a ∧ a < 36524 * (f + 1))
    (hg : 146096 * g ≤ a ∧ a < 146096 * (g + 1))
    (hb : 365 * b ≤ a - e + f - g ∧ a - e + f - g < 365 * (b + 1))
    (hc : 4 * c ≤ b ∧ b < 4 * (c + 1))
    (hd : 100 * d ≤ b ∧ b < 100 * (d + 1)) :
    0 ≤ a - (365 * b + c - d) ∧ a - (365 * b + c - d) ≤ 365 := by
  have hc0 : 0 ≤ c := by omega
  have hc1 : c ≤ 99 := by omega
  interval_cases c <;> omega

theorem civilFromDays_md_bounds (z : Int) :
    1 ≤ (civilFromDays z).2.1 ∧ (civilFromDays z).2.1 ≤ 12 ∧
    1 ≤ (civilFromDays z).2.2 ∧ (civilFromDays z).2.2 ≤ 31 := by
  simp only [civilFromDays]
  set z' := z + 719468 with hz'
  set era := z' / 146097 with hera
  set doe := z' - era * 146097 with hdoe
  set yoe := (doe - doe / 1460 + doe / 36524 - doe / 146096) / 365 with hyoe
  set doy := doe - (365 * yoe + yoe / 4 - yoe / 100) with hdoy
  set mp := (5 * doy + 2) / 153 with hmp
  have hdoeB : 0 ≤ doe ∧ doe ≤ 146096 := by
    rw [hdoe, hera]
    omega
  have hdoyB : 0 ≤ doy ∧ doy ≤ 365 := by
    rw [hdoy]
    refine civil_doy_core doe yoe (yoe / 4) (yoe / 100) (doe / 1460) (doe / 36524)
      (doe / 146096) hdoeB.1 hdoeB.2 (by omega) (by omega) (by omega) ?_ (by omega) (by omega)
    rw [hyoe]
    omega
  have hmpB : 0 ≤ mp ∧ mp ≤ 11 := by
    rw [hmp]
    omega
  have hdB : 1 ≤ doy - (153 * mp + 2) / 5 + 1 ∧ doy - (153 * mp + 2) / 5 + 1 ≤ 31 := by
    rw [hmp]
    omega
  refine ⟨?_, ?_, hdB.1, hdB.2⟩
  · split <;> omega
  · split <;> omega

theorem epochToCT_valid (t : Int) (ct : CivilTime) (h : epochToCT t = some ct) :
    ValidCT ct := by
  unfold epochToCT at h
  dsimp only at h
  split at h
  case isTrue hy =>
    injection h with h
    subst h
    have hmd := civilFromDays_md_bounds (t / 86400)
    have hsod : 0 ≤ t % 86400 ∧ t % 86400 ≤ 86399 := by omega
    unfold ValidCT
    simp only
    refine ⟨by omega, by omega, by omega, by omega, by omega, by omega, by omega, by omega,
      by omega⟩
  case isFalse hy => exact absurd h (by simp)

/-! ### Parser validity -/

theorem isDigitCh_digVal_le (c : Char) (h : isDigitCh c = true) : digVal c ≤ 9 := by
  simp only [isDigitCh, Bool.and_eq_true, decide_eq_true_eq] at h
  simp only [digVal]
  omega

theorem daysInMonth_le_31 (y m : Nat) : daysInMonth y m ≤ 31 := by
  unfold daysInMonth
  split_ifs <;> omega

theorem parseTimeTail_valid (l : List Char) (v : Nat × Nat × Nat × Option Int)
    (h : parseTimeTail l = some v) : v.1 ≤ 23 ∧ v.2.1 ≤ 59 ∧ v.2.2.1 ≤ 59 := by
  unfold parseTimeTail at h
  dsimp only at h
  repeat' split at h
  all_goals first
    | exact Option.noConfusion h
    | (injection h with h; subst h; simp_all)
    | (rcases Option.map_eq_some'.1 h with ⟨o, ho, h⟩; subst h; simp_all)

theorem dateGuard_bounds (y m d : Nat)
    (h : (decide (1 ≤ y) && decide (1 ≤ m) && decide (m ≤ 12) && decide (1 ≤ d) &&
      decide (d ≤ daysInMonth y m)) = true) :
    1 ≤ y ∧ 1 ≤ m ∧ m ≤ 12 ∧ 1 ≤ d ∧ d ≤ 31 := by
  simp only [Bool.and_eq_true, decide_eq_true_eq] at h
  have := daysInMonth_le_31 y m
  omega

theorem parseISO_valid (l : List Char) (p : ParsedISO) (h : parseISO l = some p) :
    1 ≤ p.year ∧ p.year ≤ 9999 ∧ 1 ≤ p.month ∧ p.month ≤ 12 ∧
    1 ≤ p.day ∧ p.day ≤ 31 ∧ p.hour ≤ 23 ∧ p.minute ≤ 59 ∧ p.second ≤ 59 := by
  unfold parseISO at h
  dsimp only at h
  repeat' split at h
  all_goals try exact Option.noConfusion h
  all_goals
    first
      | (injection h with h
         subst h
         have hg := dateGuard_bounds _ _ _ (by assumption)
         try dsimp only
         simp only [Bool.and_eq_true, decide_eq_true_eq, isDigitCh, digVal] at *
         omega)
      | (rcases Option.map_eq_some'.1 h with ⟨t, ht, h⟩
         subst h
         have hg := dateGuard_bounds _ _ _ (by assumption)
         have htv := parseTimeTail_valid _ _ ht
         try dsimp only
         simp only [Bool.and_eq_true, decide_eq_true_eq, isDigitCh, digVal] at *
         omega)

/-! ### C5: the timestamp normalizer contract -/

/-- C5: for every input string the normalizer returns the canonical
formatting of some in-range civil time (well-formed
`YYYY-MM-DD HH:MM:SS UTC`) and never fails; empty and unparsable inputs
fall back to the current wall-clock time; an offset-carrying input
(numeric or `Z`) is converted to UTC (the spec's `+05:30` example
included); an offset-free input is treated as already UTC. -/
theorem timestamp_normalizer_spec (now : CivilTime) (hnow : ValidCT now) :
    (∀ s : String, ∃ ct : CivilTime, ValidCT ct ∧ timestamp_to_utc_str now s = fmtCT ct) ∧
    timestamp_to_utc_str now "" = fmtCT now ∧
    (∀ s : String, parseISO (replaceZ (pyStrip s.data)) = none →
      timestamp_to_utc_str now s = fmtCT now) ∧
    timestamp_to_utc_str now "2024-01-29T12:30:00+05:30" = "2024-01-29 07:00:00 UTC" ∧
    timestamp_to_utc_str now "2024-01-29T10:00:00Z" = "2024-01-29 10:00:00 UTC" ∧
    timestamp_to_utc_str now "2024-01-29T10:00:00" = "2024-01-29 10:00:00 UTC" := by
  refine ⟨?_, rfl, ?_, rfl, rfl, rfl⟩
  · intro s
    unfold timestamp_to_utc_str
    split
    · exact ⟨now, hnow, rfl⟩
    · cases hp : parseISO (replaceZ (pyStrip s.data)) with
      | none => exact ⟨now, hnow, rfl⟩
      | some p =>
        cases ho : p.offMinutes with
        | none =>
          have hv := parseISO_valid _ _ hp
          refine ⟨⟨p.year, p.month, p.day, p.hour, p.minute, p.second⟩, ?_, ?_⟩
          · unfold ValidCT
            dsimp only
            omega
          · simp only [ho]
        | some off =>
          cases he : epochToCT (ctToEpoch p.year p.month p.day p.hour p.minute p.second off) with
          | none =>
            refine ⟨now, hnow, ?_⟩
            simp only [ho, he]
          | some ct2 =>
            refine ⟨ct2, epochToCT_valid _ _ he, ?_⟩
            simp only [ho, he]
  · intro s hp
    unfold timestamp_to_utc_str
    split
    · rfl
    · rw [hp]

theorem timestamp_normalizer_spec_witness :
    timestamp_to_utc_str now2024 "2024-01-29T12:30:00+05:30" = "2024-01-29 07:00:00 UTC" :=
  (timestamp_normalizer_spec now2024 (by decide)).2.2.2.1

/-! ### C6: timestamp normalization is not idempotent -/

theorem digitChar10_not_space (n : Nat) : isSpaceCh (digitChar10 n) = false := by
  unfold digitChar10
  have h : n % 10 < 10 := Nat.mod_lt _ (by omega)
  set r := n % 10 with hr
  clear_value r
  interval_cases r <;> decide

theorem digitChar10_ne_Z (n : Nat) : digitChar10 n ≠ 'Z' := by
  unfold digitChar10
  have h : n % 10 < 10 := Nat.mod_lt _ (by omega)
  set r := n % 10 with hr
  clear_value r
  interval_cases r <;> decide

/-- C6 counterexample: the canonical string `2024-01-29 10:00:00 UTC` is
not a fixed point when the wall clock reads the epoch — the trailing
` UTC` makes `fromisoformat` fail, so the normalizer falls back to the
current time. -/
theorem timestamp_canonical_cex :
    timestamp_to_utc_str now1970 "2024-01-29 10:00:00 UTC" ≠ "2024-01-29 10:00:00 UTC" := by
  decide

/-- C6: the claimed idempotence is false — it fails for EVERY canonical
string.  Amended: for any wall-clock time `now` and any civil time `ct`,
normalizing the canonical string `fmtCT ct` yields `fmtCT now` (the
trailing ` UTC` is not accepted by `datetime.fromisoformat`, so every
already-canonical input takes the fallback branch); it is idempotent
only in the incidental case `fmtCT ct = fmtCT now`. -/
theorem timestamp_canonical_fallback (now ct : CivilTime) :
    timestamp_to_utc_str now (fmtCT ct) = fmtCT now := by
  have hdata : (fmtCT ct).data =
      digitChar10 (ct.year / 1000) :: digitChar10 (ct.year / 100) ::
      digitChar10 (ct.year / 10) :: digitChar10 ct.year :: '-' ::
      digitChar10 (ct.month / 10) :: digitChar10 ct.month :: '-' ::
      digitChar10 (ct.day / 10) :: digitChar10 ct.day :: ' ' ::
      digitChar10 (ct.hour / 10) :: digitChar10 ct.hour :: ':' ::
      digitChar10 (ct.minute / 10) :: digitChar10 ct.minute :: ':' ::
      digitChar10 (ct.second / 10) :: digitChar10 ct.second ::
      ' ' :: 'U' :: 'T' :: 'C' :: [] := rfl
  have hne : fmtCT ct ≠ "" := by
    intro hc
    have h2 := congrArg String.data hc
    rw [hdata] at h2
    exact List.noConfusion h2
  have hstrip : pyStrip ((fmtCT ct).data) = (fmtCT ct).data := by
    rw [hdata]
    have hC : isSpaceCh 'C' = false := rfl
    simp [pyStrip, List.dropWhile_cons, digitChar10_not_space, hC]
  have hrepl : replaceZ ((fmtCT ct).data) = (fmtCT ct).data := by
    rw [hdata]
    simp [replaceZ, digitChar10_ne_Z]
  have hparse : parseISO ((fmtCT ct).data) = none := by
    rw [hdata]
    simp only [parseISO, parseTimeTail]
    repeat' split
    all_goals
      first
        | rfl
        | (rename_i heq
           first
             | exact List.noConfusion heq
             | (injection heq with h1 h2
                exact absurd h1 (by decide)))
  unfold timestamp_to_utc_str
  rw [if_neg hne, hstrip, hrepl, hparse]
